import Mathlib

set_option maxRecDepth 4000

/-!
# MIDI stream parser: shallow embedding and verification

This file embeds the MIDI byte-stream parser (`MIDIparser.h` /
`MIDIparser.cpp`) in Lean 4 and proves properties of it.

The repository carries two revisions of `MIDIparser.cpp`.  They share the
same control flow in `accept`, but differ in the classification tables:

* the earlier revision has `midi_msg_bytes = {2,2,2,2,1,2,2}` (channel
  pressure expects 2 data bytes) and a 7-entry `midi_sysmsg_bytes`
  `{-1,1,2,1,0,0,0}`;
* the later revision has `midi_msg_bytes = {2,2,2,2,1,1,2}` (channel
  pressure expects 1 data byte) and an 8-entry `midi_sysmsg_bytes`
  `{-1,1,2,1,0,0,0,0}`.

The later revision keeps the plain source names here; the earlier revision
gets a `_v1` suffix.  Bytes are modelled as `Nat` (inputs are 8-bit `char`
values, so theorems carry `≤ 0xFF` bounds where needed).  Array indexing
is modelled with `List.get?`, so an out-of-bounds access — undefined
behaviour in the C++ — surfaces as `none`, and the state machine `accept`
returns `Option` accordingly.
-/

/-- Source: `constexpr bool is_msg(uint8_t msg) { return (msg & 0x80) == 0x80; }`
(the earlier revision names this `is_cmd`, with the same body). -/
def is_msg (b : Nat) : Bool := b &&& 0x80 == 0x80

/-- Source: `constexpr bool is_sysmsg(uint8_t msg) { return (msg & 0xf8) == 0xf0; }`
(earlier revision: `is_syscmd`). -/
def is_sysmsg (b : Nat) : Bool := b &&& 0xf8 == 0xf0

/-- Source: `constexpr bool is_rtmsg(uint8_t msg) { return (msg & 0xf8) == 0xf8; }`
(earlier revision: `is_rtcmd`). -/
def is_rtmsg (b : Nat) : Bool := b &&& 0xf8 == 0xf8

/-- Later revision: `int8_t const midi_msg_bytes[7] = { 2, 2, 2, 2, 1, 1, 2 };`
indexed by the 3-bit channel-message opcode. -/
def midi_msg_bytes : List Int := [2, 2, 2, 2, 1, 1, 2]

/-- Later revision: `int8_t const midi_sysmsg_bytes[8] = { -1, 1, 2, 1, 0, 0, 0, 0 };`
indexed by the low 3 bits of a system-common message byte. -/
def midi_sysmsg_bytes : List Int := [-1, 1, 2, 1, 0, 0, 0, 0]

/-- Earlier revision: `int8_t const midi_msg_bytes[7] = { 2, 2, 2, 2, 1, 2, 2, };`. -/
def midi_msg_bytes_v1 : List Int := [2, 2, 2, 2, 1, 2, 2]

/-- Earlier revision: `int8_t const midi_sysmsg_bytes[7] = { -1, 1, 2, 1, 0, 0, 0 };`
— only seven entries. -/
def midi_sysmsg_bytes_v1 : List Int := [-1, 1, 2, 1, 0, 0, 0]

/-- Later revision's
```
int8_t expected_bytes(uint8_t msg)
{
   if (msg < MIDI::SYS_MSGS)            // SYS_MSGS = 0xF0
      return midi_msg_bytes[(msg >> 4) & 7];
   else
      return midi_sysmsg_bytes[msg & 0x7];
}
```
An out-of-bounds table access is `none`. -/
def expected_bytes (msg : Nat) : Option Int :=
  if msg < 0xF0 then
    midi_msg_bytes.get? ((msg >>> 4) &&& 7)
  else
    midi_sysmsg_bytes.get? (msg &&& 0x7)

/-- Earlier revision's
```
int8_t expected_bytes(uint8_t message)
{
   if (message < MIDI::SYS_MESSAGES)    // SYS_MESSAGES = 0xF0
      return midi_msg_bytes[(message >> 4) & 7];
   if (message < MIDI::RT_MESSAGES)     // RT_MESSAGES = 0xF8
      return midi_sysmsg_bytes[message & 0x7];
   return 0;
}
```
An out-of-bounds table access is `none`. -/
def expected_bytes_v1 (message : Nat) : Option Int :=
  if message < 0xF0 then
    midi_msg_bytes_v1.get? ((message >>> 4) &&& 7)
  else if message < 0xF8 then
    midi_sysmsg_bytes_v1.get? (message &&& 0x7)
  else
    some 0

/-- The parser state of `MIDI::Parser`:
`uint8_t mMessage; int8_t mExpected; uint8_t mData[2];`. -/
structure Parser where
  mMessage : Nat
  mExpected : Int
  mData : Nat × Nat
deriving DecidableEq

/-- Source: `void MIDI::Parser::reset() { mMessage = 0; mExpected = 0; mData[0] = mData[1] = 0; }` -/
def Parser.reset : Parser :=
  { mMessage := 0, mExpected := 0, mData := (0, 0) }

/-- The store `mData[i] = v` for the two-entry array `mData`; an index
outside {0, 1} is an out-of-bounds write, modelled as `none`. -/
def setData (d : Nat × Nat) (i : Int) (v : Nat) : Option (Nat × Nat) :=
  if i = 0 then some (v, d.2)
  else if i = 1 then some (d.1, v)
  else none

/-- The tail of `accept`, shared by both revisions:
```
   if (mExpected == 0)
   {
      mExpected = expected_bytes(mMessage);
      return mMessage;
   }
   return 0;
```
parameterised by the revision's `expected_bytes`. -/
def finishWith (eb : Nat → Option Int) (p : Parser) : Option (Parser × Nat) :=
  if p.mExpected = 0 then
    match eb p.mMessage with
    | some e => some ({ p with mExpected := e }, p.mMessage)
    | none => none
  else
    some (p, 0)

/-- Source: `uint8_t MIDI::Parser::accept(char midiByte)`, identical in both
revisions up to the `expected_bytes` it consults, hence parameterised:
```
   if (is_rtmsg(midiByte)) return midiByte;
   if (is_msg(midiByte))
   {
      mMessage = midiByte;
      mExpected = expected_bytes(mMessage);
      if (mExpected < 0) return mMessage;
   }
   else if (mExpected > 0)
   {
      mData[2 - mExpected] = midiByte;
      --mExpected;
   }
   if (mExpected == 0) { mExpected = expected_bytes(mMessage); return mMessage; }
   return 0;
```
The result pairs the new state with the returned byte; `none` marks an
out-of-bounds table read or `mData` write (undefined behaviour in C++). -/
def acceptWith (eb : Nat → Option Int) (p : Parser) (b : Nat) : Option (Parser × Nat) :=
  if is_rtmsg b then
    some (p, b)
  else if is_msg b then
    match eb b with
    | some e =>
      if e < 0 then
        some ({ p with mMessage := b, mExpected := e }, b)
      else
        finishWith eb { p with mMessage := b, mExpected := e }
    | none => none
  else if p.mExpected > 0 then
    match setData p.mData (2 - p.mExpected) b with
    | some d => finishWith eb { p with mData := d, mExpected := p.mExpected - 1 }
    | none => none
  else
    finishWith eb p

/-- The later revision's `accept`. -/
def accept (p : Parser) (b : Nat) : Option (Parser × Nat) :=
  acceptWith expected_bytes p b

/-- The earlier revision's `accept`. -/
def accept_v1 (p : Parser) (b : Nat) : Option (Parser × Nat) :=
  acceptWith expected_bytes_v1 p b

/-- States of the later revision's parser reachable from the reset state by
feeding 8-bit bytes. -/
inductive Reachable : Parser → Prop
  | init : Reachable Parser.reset
  | step {p q : Parser} {b r : Nat} :
      Reachable p → b ≤ 0xFF → accept p b = some (q, r) → Reachable q

/-- The inductive invariant: `mExpected` stays in {-1, 0, 1, 2} and
`mMessage` is 0 (reset value) or a non-realtime message byte. -/
def ParserInv (p : Parser) : Prop :=
  (p.mExpected = -1 ∨ p.mExpected = 0 ∨ p.mExpected = 1 ∨ p.mExpected = 2) ∧
  (p.mMessage = 0 ∨ (0x80 ≤ p.mMessage ∧ p.mMessage ≤ 0xF7))

/-- Boolean form of the `mExpected` range invariant. -/
def stateOk (p : Parser) : Bool :=
  p.mExpected == -1 || p.mExpected == 0 || p.mExpected == 1 || p.mExpected == 2

/-- Boolean one-step safety check at state `p` on input `b`: the step is
defined (every table read and every `mData` write is in bounds, so data
bytes land only at indices 0 and 1 of the two-entry array), the successor
satisfies the `mExpected` range invariant, and `mMessage` changes only if
the input byte is a message-start byte that is not realtime. -/
def stepOk (p : Parser) (b : Nat) : Bool :=
  match accept p b with
  | none => false
  | some (q, _) =>
      stateOk q && (q.mMessage == p.mMessage || (is_msg b && !is_rtmsg b))

/-- On bytes, `is_msg` tests the high bit, i.e. `0x80 ≤ b`. -/
theorem is_msg_fin : ∀ x : Fin 256, is_msg x.val = decide (0x80 ≤ x.val) := by decide

/-- On bytes, `is_rtmsg` tests for the realtime range `0xF8 ≤ b`. -/
theorem is_rtmsg_fin : ∀ x : Fin 256, is_rtmsg x.val = decide (0xF8 ≤ x.val) := by decide

theorem is_msg_eq_of_le {b : Nat} (hb : b ≤ 0xFF) : is_msg b = decide (0x80 ≤ b) := by
  simpa using is_msg_fin ⟨b, by omega⟩

theorem is_rtmsg_eq_of_le {b : Nat} (hb : b ≤ 0xFF) : is_rtmsg b = decide (0xF8 ≤ b) := by
  simpa using is_rtmsg_fin ⟨b, by omega⟩

/-- A byte recognised by `is_msg` has the high bit set, hence is at least `0x80`. -/
theorem ge_of_is_msg {b : Nat} (h : is_msg b = true) : 0x80 ≤ b := by
  have hb : b &&& 0x80 = 0x80 := by simpa [is_msg] using h
  calc (0x80 : Nat) = b &&& 0x80 := hb.symm
    _ ≤ b := Nat.and_le_left

/-- A byte recognised by `is_rtmsg` is at least `0xF8`. -/
theorem ge_of_is_rtmsg {b : Nat} (h : is_rtmsg b = true) : 0xF8 ≤ b := by
  have hb : b &&& 0xf8 = 0xf8 := by simpa [is_rtmsg] using h
  calc (0xF8 : Nat) = b &&& 0xf8 := hb.symm
    _ ≤ b := Nat.and_le_left

/-- On every byte that is 0 or a message byte — the only arguments `accept`
ever passes — the later revision's `expected_bytes` is defined (both tables
are indexed in bounds) and yields a value in {-1, 0, 1, 2}. -/
theorem expected_bytes_fin :
    ∀ x : Fin 256, x.val = 0 ∨ 0x80 ≤ x.val →
      ((expected_bytes x.val).isSome &&
        ((expected_bytes x.val).getD 0 == -1 || (expected_bytes x.val).getD 0 == 0 ||
          (expected_bytes x.val).getD 0 == 1 || (expected_bytes x.val).getD 0 == 2)) = true := by
  decide

theorem expected_bytes_cases {m : Nat} (hm : m ≤ 0xFF) (hm0 : m = 0 ∨ 0x80 ≤ m) :
    ∃ e, expected_bytes m = some e ∧ (e = -1 ∨ e = 0 ∨ e = 1 ∨ e = 2) := by
  have h := expected_bytes_fin ⟨m, by omega⟩ (by simpa using hm0)
  simp only [Fin.val_mk, Bool.and_eq_true, Bool.or_eq_true, beq_iff_eq] at h
  cases hE : expected_bytes m with
  | none => rw [hE] at h; simp at h
  | some e =>
      rw [hE] at h
      refine ⟨e, rfl, ?_⟩
      have h2 := h.2
      tauto

/-- One-step soundness of `accept` from any state satisfying `ParserInv`:
the step is defined (no out-of-bounds table read or `mData` write), the
invariant is preserved, `mMessage` changes only on a non-realtime
message-start byte, and the returned byte is 0 or has the high bit set. -/
theorem accept_step {p : Parser} {b : Nat} (hp : ParserInv p) (hb : b ≤ 0xFF) :
    ∃ q r, accept p b = some (q, r) ∧ ParserInv q ∧
      (q.mMessage ≠ p.mMessage → is_msg b = true ∧ is_rtmsg b = false) ∧
      (r = 0 ∨ (0x80 ≤ r ∧ r ≤ 0xFF)) := by
  obtain ⟨hE, hM⟩ := hp
  by_cases hrt : is_rtmsg b = true
  · refine ⟨p, b, ?_, ⟨hE, hM⟩, ?_, ?_⟩
    · simp [accept, acceptWith, hrt]
    · intro h; exact absurd rfl h
    · exact Or.inr ⟨le_trans (by norm_num) (ge_of_is_rtmsg hrt), hb⟩
  · have hrt' : is_rtmsg b = false := by simpa using hrt
    have hb2 : b ≤ 0xF7 := by
      have h8 := hrt'
      rw [is_rtmsg_eq_of_le hb] at h8
      have := of_decide_eq_false h8
      omega
    by_cases hmsg : is_msg b = true
    · have hb1 : 0x80 ≤ b := ge_of_is_msg hmsg
      obtain ⟨e, hEq, hcase⟩ := expected_bytes_cases hb (Or.inr hb1)
      rcases hcase with rfl | rfl | rfl | rfl
      · -- e = -1 : SYSEX-style early return
        refine ⟨{ p with mMessage := b, mExpected := -1 }, b, ?_, ?_, ?_, ?_⟩
        · simp [accept, acceptWith, hrt', hmsg, hEq]
        · exact ⟨Or.inl rfl, Or.inr ⟨hb1, hb2⟩⟩
        · intro _; exact ⟨hmsg, hrt'⟩
        · exact Or.inr ⟨hb1, hb⟩
      · -- e = 0 : zero-parameter message completes at once
        refine ⟨{ p with mMessage := b, mExpected := 0 }, b, ?_, ?_, ?_, ?_⟩
        · simp [accept, acceptWith, finishWith, hrt', hmsg, hEq]
        · exact ⟨Or.inr (Or.inl rfl), Or.inr ⟨hb1, hb2⟩⟩
        · intro _; exact ⟨hmsg, hrt'⟩
        · exact Or.inr ⟨hb1, hb⟩
      · -- e = 1
        refine ⟨{ p with mMessage := b, mExpected := 1 }, 0, ?_, ?_, ?_, ?_⟩
        · simp [accept, acceptWith, finishWith, hrt', hmsg, hEq]
        · exact ⟨Or.inr (Or.inr (Or.inl rfl)), Or.inr ⟨hb1, hb2⟩⟩
        · intro _; exact ⟨hmsg, hrt'⟩
        · exact Or.inl rfl
      · -- e = 2
        refine ⟨{ p with mMessage := b, mExpected := 2 }, 0, ?_, ?_, ?_, ?_⟩
        · simp [accept, acceptWith, finishWith, hrt', hmsg, hEq]
        · exact ⟨Or.inr (Or.inr (Or.inr rfl)), Or.inr ⟨hb1, hb2⟩⟩
        · intro _; exact ⟨hmsg, hrt'⟩
        · exact Or.inl rfl
    · have hmsg' : is_msg b = false := by simpa using hmsg
      have hMle : p.mMessage ≤ 0xFF := by rcases hM with h | ⟨_, h⟩ <;> omega
      have hM0 : p.mMessage = 0 ∨ 0x80 ≤ p.mMessage := by
        rcases hM with h | ⟨h, _⟩ <;> [exact Or.inl h; exact Or.inr h]
      have hRet : p.mMessage = 0 ∨ (0x80 ≤ p.mMessage ∧ p.mMessage ≤ 0xFF) := by
        rcases hM with h | ⟨h1, h2⟩ <;> [exact Or.inl h; exact Or.inr ⟨h1, by omega⟩]
      obtain ⟨e2, hEq2, hcase2⟩ := expected_bytes_cases hMle hM0
      rcases hE with h1 | h1 | h1 | h1
      · -- mExpected = -1 : SYSEX hold, byte discarded
        refine ⟨p, 0, ?_, ?_, ?_, Or.inl rfl⟩
        · simp [accept, acceptWith, finishWith, hrt', hmsg', h1]
        · exact ⟨Or.inl h1, hM⟩
        · intro h; exact absurd rfl h
      · -- mExpected = 0 : idle; completion check re-fires on mMessage
        refine ⟨{ p with mExpected := e2 }, p.mMessage, ?_, ?_, ?_, hRet⟩
        · simp [accept, acceptWith, finishWith, hrt', hmsg', h1, hEq2]
        · exact ⟨by simpa using hcase2, hM⟩
        · intro h; exact absurd rfl h
      · -- mExpected = 1 : store at mData[1], message completes
        refine ⟨{ p with mData := (p.mData.1, b), mExpected := e2 }, p.mMessage, ?_, ?_, ?_, hRet⟩
        · simp [accept, acceptWith, finishWith, setData, h1, hrt', hmsg', hEq2]
        · exact ⟨by simpa using hcase2, hM⟩
        · intro h; exact absurd rfl h
      · -- mExpected = 2 : store at mData[0], one more byte pending
        refine ⟨{ p with mData := (b, p.mData.2), mExpected := 1 }, 0, ?_, ?_, ?_, Or.inl rfl⟩
        · simp [accept, acceptWith, finishWith, setData, h1, hrt', hmsg']
        · exact ⟨Or.inr (Or.inr (Or.inl rfl)), hM⟩
        · intro h; exact absurd rfl h

/-- Every state reachable from reset satisfies the invariant. -/
theorem reachable_inv {p : Parser} (h : Reachable p) : ParserInv p := by
  induction h with
  | init => exact ⟨Or.inr (Or.inl rfl), Or.inl rfl⟩
  | step hp hb hacc ih =>
      obtain ⟨q', r', hEq, hInv, -, -⟩ := accept_step ih hb
      rw [hacc] at hEq
      obtain ⟨rfl, rfl⟩ : _ ∧ _ := by simpa using hEq
      exact hInv

/-- A data byte is classified neither as a message byte nor as realtime. -/
theorem data_byte_flags {d : Nat} (hd : d < 0x80) :
    is_msg d = false ∧ is_rtmsg d = false := by
  constructor
  · rw [is_msg_eq_of_le (by omega)]
    exact decide_eq_false (by omega)
  · rw [is_rtmsg_eq_of_le (by omega)]
    exact decide_eq_false (by omega)

/-- Whenever `accept` returns a non-realtime message byte `m` whose
parameter count is the non-negative `e`, the resulting state has
`mMessage = m` and `mExpected` re-armed to `e` (running status). -/
theorem accept_completes {q p : Parser} {b m : Nat} {e : Int}
    (hacc : accept q b = some (p, m)) (hm1 : 0x80 ≤ m) (hm2 : m ≤ 0xF7)
    (he : expected_bytes m = some e) (he0 : 0 ≤ e) :
    p.mMessage = m ∧ p.mExpected = e := by
  by_cases hrt : is_rtmsg b = true
  · exfalso
    have hbm : b = m := by
      have := hacc
      simp [accept, acceptWith, hrt] at this
      exact this.2
    have := ge_of_is_rtmsg hrt
    omega
  · have hrt' : is_rtmsg b = false := by simpa using hrt
    by_cases hmsg : is_msg b = true
    · cases hEb : expected_bytes b with
      | none => simp [accept, acceptWith, hrt', hmsg, hEb] at hacc
      | some e' =>
          by_cases hneg : e' < 0
          · exfalso
            have h' := hacc
            simp [accept, acceptWith, hrt', hmsg, hEb, hneg] at h'
            obtain ⟨-, rfl⟩ := h'
            rw [he] at hEb
            have : e = e' := by injection hEb
            omega
          · by_cases hz : e' = 0
            · subst hz
              have h' := hacc
              simp [accept, acceptWith, finishWith, hrt', hmsg, hEb, hneg] at h'
              obtain ⟨hq, rfl⟩ := h'
              rw [he] at hEb
              have heq : e = (0 : Int) := by injection hEb
              constructor
              · rw [← hq]
              · rw [← hq, heq]
            · exfalso
              have h' := hacc
              simp [accept, acceptWith, finishWith, hrt', hmsg, hEb, hneg, hz] at h'
              omega
    · have hmsg' : is_msg b = false := by simpa using hmsg
      by_cases hpe : q.mExpected > 0
      · cases hsd : setData q.mData (2 - q.mExpected) b with
        | none => simp [accept, acceptWith, hrt', hmsg', hpe, hsd] at hacc
        | some dd =>
            by_cases hz : q.mExpected - 1 = 0
            · cases hE2 : expected_bytes q.mMessage with
              | none =>
                  simp [accept, acceptWith, finishWith, hrt', hmsg', hpe, hsd, hz, hE2] at hacc
              | some e'' =>
                  have h' := hacc
                  simp [accept, acceptWith, finishWith, hrt', hmsg', hpe, hsd, hz, hE2] at h'
                  obtain ⟨hq, rfl⟩ := h'
                  subst hq
                  rw [he] at hE2
                  have : e'' = e := by injection hE2 with h; exact h.symm
                  simp [this]
            · exfalso
              have h' := hacc
              simp [accept, acceptWith, finishWith, hrt', hmsg', hpe, hsd, hz] at h'
              omega
      · by_cases hz : q.mExpected = 0
        · cases hE2 : expected_bytes q.mMessage with
          | none => simp [accept, acceptWith, finishWith, hrt', hmsg', hpe, hz, hE2] at hacc
          | some e'' =>
              have h' := hacc
              simp [accept, acceptWith, finishWith, hrt', hmsg', hpe, hz, hE2] at h'
              obtain ⟨hq, rfl⟩ := h'
              subst hq
              rw [he] at hE2
              have : e'' = e := by injection hE2 with h; exact h.symm
              simp [this]
        · exfalso
          have h' := hacc
          simp [accept, acceptWith, finishWith, hrt', hmsg', hpe, hz] at h'
          omega

/-- Channel-message byte-count characterisation, decided over all bytes. -/
theorem expected_bytes_channel_fin :
    ∀ x : Fin 256, 0x80 ≤ x.val → x.val ≤ 0xEF →
      expected_bytes x.val = midi_msg_bytes.get? ((x.val >>> 4) &&& 7) ∧
      expected_bytes x.val = some (if 0xC0 ≤ x.val ∧ x.val < 0xE0 then 1 else 2) := by
  decide

/-- Claim C1: for every channel-message start byte (0x80–0xEF),
`expected_bytes` selects by the 3-bit opcode in the high nibble from the
fixed table `midi_msg_bytes`, and returns 2 parameter bytes for every
channel message type except program change (0xC0–0xCF) and channel
pressure (0xD0–0xDF), which each return 1. -/
theorem claim_C1 (b : Nat) (h1 : 0x80 ≤ b) (h2 : b ≤ 0xEF) :
    expected_bytes b = midi_msg_bytes.get? ((b >>> 4) &&& 7) ∧
    expected_bytes b = some (if 0xC0 ≤ b ∧ b < 0xE0 then 1 else 2) := by
  simpa using expected_bytes_channel_fin ⟨b, by omega⟩ h1 h2

theorem claim_C1_witness :
    (0x80 ≤ 0xD3 ∧ 0xD3 ≤ 0xEF) ∧
      (expected_bytes 0xD3 = midi_msg_bytes.get? ((0xD3 >>> 4) &&& 7) ∧
        expected_bytes 0xD3 = some (if 0xC0 ≤ 0xD3 ∧ 0xD3 < 0xE0 then 1 else 2)) :=
  ⟨by decide, claim_C1 0xD3 (by decide) (by decide)⟩

/-- System-common byte-count characterisation, decided over all bytes. -/
theorem expected_bytes_system_fin :
    ∀ x : Fin 256, 0xF0 ≤ x.val → x.val ≤ 0xF7 →
      expected_bytes x.val = midi_sysmsg_bytes.get? (x.val &&& 0x7) ∧
      expected_bytes x.val =
        some (if x.val = 0xF0 then -1
          else if x.val = 0xF1 then 1
          else if x.val = 0xF2 then 2
          else if x.val = 0xF3 then 1
          else 0) := by
  decide

/-- Claim C2: for every system-common start byte (0xF0–0xF7),
`expected_bytes` selects by the low 3 bits from the fixed table
`midi_sysmsg_bytes` and returns: SYSEX (0xF0) → -1 (indefinite), MIDI
time-code quarter frame (0xF1) → 1, song position pointer (0xF2) → 2,
song select (0xF3) → 1, the undefined subtypes 0xF4 and 0xF5, tune
request (0xF6) and ENDEX (0xF7) → 0. -/
theorem claim_C2 (b : Nat) (h1 : 0xF0 ≤ b) (h2 : b ≤ 0xF7) :
    expected_bytes b = midi_sysmsg_bytes.get? (b &&& 0x7) ∧
    expected_bytes b =
      some (if b = 0xF0 then -1
        else if b = 0xF1 then 1
        else if b = 0xF2 then 2
        else if b = 0xF3 then 1
        else 0) := by
  simpa using expected_bytes_system_fin ⟨b, by omega⟩ h1 h2

theorem claim_C2_witness :
    (0xF0 ≤ 0xF2 ∧ 0xF2 ≤ 0xF7) ∧
      (expected_bytes 0xF2 = midi_sysmsg_bytes.get? (0xF2 &&& 0x7) ∧
        expected_bytes 0xF2 =
          some (if 0xF2 = 0xF0 then -1
            else if 0xF2 = 0xF1 then 1
            else if 0xF2 = 0xF2 then 2
            else if 0xF2 = 0xF3 then 1
            else 0)) :=
  ⟨by decide, claim_C2 0xF2 (by decide) (by decide)⟩

/-- Claim C3: the two revisions of the channel-message parameter-count
table agree at every slot except slot 5 — the opcode index of channel
pressure (0xD0) — where the earlier revision has 2 and the later has 1. -/
theorem claim_C3 :
    midi_msg_bytes_v1.get? 5 = some 2 ∧ midi_msg_bytes.get? 5 = some 1 ∧
    ∀ i : Fin 7, i.val ≠ 5 → midi_msg_bytes_v1.get? i.val = midi_msg_bytes.get? i.val := by
  decide

theorem claim_C3_witness :
    (0 : Fin 7).val ≠ 5 ∧
      midi_msg_bytes_v1.get? (0 : Fin 7).val = midi_msg_bytes.get? (0 : Fin 7).val :=
  ⟨by decide, claim_C3.2.2 0 (by decide)⟩

/-- Claim C9 (code behaviour at the failing input): for ENDEX (0xF7) the
system-common lookup index is 7; the earlier revision's
`midi_sysmsg_bytes` has only 7 entries, so the lookup is out of bounds
(`none`, undefined behaviour in the C++) and `expected_bytes_v1` is
undefined at 0xF7, while the later revision's 8-entry table makes the
same lookup in bounds, with `expected_bytes 0xF7 = 0`.  All other
non-realtime message bytes are in bounds in both revisions. -/
theorem claim_C9 :
    (0xF7 &&& 0x7) = 7 ∧
    midi_sysmsg_bytes_v1.length = 7 ∧
    midi_sysmsg_bytes_v1.get? (0xF7 &&& 0x7) = none ∧
    expected_bytes_v1 0xF7 = none ∧
    midi_sysmsg_bytes.length = 8 ∧
    expected_bytes 0xF7 = some 0 := by
  decide

/-- Apart from ENDEX in the earlier revision, every non-realtime message
byte is looked up in bounds by both revisions. -/
theorem expected_bytes_inbounds :
    (∀ x : Fin 256, 0x80 ≤ x.val → x.val ≤ 0xF7 → (expected_bytes x.val).isSome = true) ∧
    (∀ x : Fin 256, 0x80 ≤ x.val → x.val ≤ 0xF6 → (expected_bytes_v1 x.val).isSome = true) := by
  decide

/-- Equation for `accept` on a zero-parameter message byte: it completes
immediately, re-arming `mExpected` to 0. -/
theorem accept_msg_zero {p : Parser} {b : Nat}
    (hrt : is_rtmsg b = false) (hmsg : is_msg b = true)
    (hEb : expected_bytes b = some 0) :
    accept p b = some ({ p with mMessage := b, mExpected := 0 }, b) := by
  simp [accept, acceptWith, finishWith, hrt, hmsg, hEb]

/-- Claim C4: for every realtime byte (0xF8–0xFF) and every parser state,
`accept` — in both revisions — returns the byte immediately as a completed
message and leaves the whole state (`mMessage`, `mExpected`, `mData[0]`,
`mData[1]`) unchanged. -/
theorem claim_C4 (p : Parser) (b : Nat) (h1 : 0xF8 ≤ b) (h2 : b ≤ 0xFF) :
    accept p b = some (p, b) ∧ accept_v1 p b = some (p, b) := by
  have hrt : is_rtmsg b = true := by
    rw [is_rtmsg_eq_of_le h2]
    exact decide_eq_true h1
  exact ⟨by simp [accept, acceptWith, hrt], by simp [accept_v1, acceptWith, hrt]⟩

theorem claim_C4_witness :
    (0xF8 ≤ 0xFA ∧ 0xFA ≤ 0xFF) ∧
      (accept Parser.reset 0xFA = some (Parser.reset, 0xFA) ∧
        accept_v1 Parser.reset 0xFA = some (Parser.reset, 0xFA)) :=
  ⟨by decide, claim_C4 Parser.reset 0xFA (by decide) (by decide)⟩

/-- Claim C5 (running status): after `accept` has returned a 2-parameter
channel message `m` as completed, feeding two further data bytes with no
intervening message-start byte yields "no message" (0) for the first and
the same completed message code `m` for the second, with the two new data
bytes stored in `mData[0]` and `mData[1]` — the re-arming of `mExpected`
on completion reconstructs the new data against the same message type. -/
theorem claim_C5 (q p : Parser) (b m d1 d2 : Nat)
    (hm1 : 0x80 ≤ m) (hm2 : m ≤ 0xEF) (hp2 : expected_bytes m = some 2)
    (hacc : accept q b = some (p, m)) (hd1 : d1 < 0x80) (hd2 : d2 < 0x80) :
    accept p d1 = some ({ p with mData := (d1, p.mData.2), mExpected := 1 }, 0) ∧
    accept { p with mData := (d1, p.mData.2), mExpected := 1 } d2 =
      some ({ p with mData := (d1, d2), mExpected := 2 }, m) := by
  obtain ⟨hpm, hpe⟩ := accept_completes hacc hm1 (by omega) hp2 (by norm_num)
  obtain ⟨hm1f, hr1f⟩ := data_byte_flags hd1
  obtain ⟨hm2f, hr2f⟩ := data_byte_flags hd2
  constructor
  · simp [accept, acceptWith, finishWith, setData, hm1f, hr1f, hpe]
  · simp [accept, acceptWith, finishWith, setData, hm2f, hr2f, hpm, hp2]

theorem claim_C5_witness :
    ((0x80 ≤ 0x90 ∧ 0x90 ≤ 0xEF) ∧ expected_bytes 0x90 = some 2 ∧
      accept (Parser.mk 0x90 1 (0x40, 0)) 0x7F = some (Parser.mk 0x90 2 (0x40, 0x7F), 0x90) ∧
      0x41 < 0x80 ∧ 0x00 < 0x80) ∧
    (accept (Parser.mk 0x90 2 (0x40, 0x7F)) 0x41 = some (Parser.mk 0x90 1 (0x41, 0x7F), 0) ∧
      accept (Parser.mk 0x90 1 (0x41, 0x7F)) 0x00 = some (Parser.mk 0x90 2 (0x41, 0x00), 0x90)) :=
  ⟨by decide,
    claim_C5 (Parser.mk 0x90 1 (0x40, 0)) (Parser.mk 0x90 2 (0x40, 0x7F)) 0x7F 0x90 0x41 0x00
      (by decide) (by decide) (by decide) (by decide) (by decide) (by decide)⟩

/-- Claim C6 (SYSEX passthrough): feeding SYSEX (0xF0) makes `accept`
return 0xF0 immediately as a completed message, putting the parser in the
indefinite-hold state `mExpected = -1`; in any state with `mExpected = -1`
a byte with the high bit clear returns "no message" (0) and leaves the
state completely unchanged (so the hold persists); and feeding ENDEX
(0xF7) then makes `accept` return 0xF7 immediately as completed. -/
theorem claim_C6 (p q : Parser) (d : Nat) (hd : d < 0x80) (hq : q.mExpected = -1) :
    accept p 0xF0 = some ({ p with mMessage := 0xF0, mExpected := -1 }, 0xF0) ∧
    accept q d = some (q, 0) ∧
    accept { p with mMessage := 0xF0, mExpected := -1 } 0xF7 =
      some ({ p with mMessage := 0xF7, mExpected := 0 }, 0xF7) := by
  obtain ⟨hmf, hrf⟩ := data_byte_flags hd
  refine ⟨rfl, ?_, ?_⟩
  · simp [accept, acceptWith, finishWith, hmf, hrf, hq]
  · exact accept_msg_zero (by decide) (by decide) (by decide)

theorem claim_C6_witness :
    (0x33 < 0x80 ∧ (Parser.mk 0xF0 (-1) (0, 0)).mExpected = -1) ∧
    (accept Parser.reset 0xF0 = some (Parser.mk 0xF0 (-1) (0, 0), 0xF0) ∧
      accept (Parser.mk 0xF0 (-1) (0, 0)) 0x33 = some (Parser.mk 0xF0 (-1) (0, 0), 0) ∧
      accept (Parser.mk 0xF0 (-1) (0, 0)) 0xF7 = some (Parser.mk 0xF7 0 (0, 0), 0xF7)) :=
  ⟨by decide,
    claim_C6 Parser.reset (Parser.mk 0xF0 (-1) (0, 0)) 0x33 (by decide) (by decide)⟩

/-- Claim C8 (boundary): a data byte (high bit clear) arriving while
`mExpected = 0` and no message-start byte has been seen (`mMessage` still
the reset value 0) is not stored into `mData` and `accept` returns
"no message yet" (0); only `mExpected` is re-armed from the table. -/
theorem claim_C8 (p : Parser) (d : Nat) (hd : d < 0x80)
    (hE : p.mExpected = 0) (hM : p.mMessage = 0) :
    accept p d = some ({ p with mExpected := 2 }, 0) := by
  obtain ⟨hmf, hrf⟩ := data_byte_flags hd
  have hE0 : expected_bytes 0 = some 2 := by decide
  simp [accept, acceptWith, finishWith, hmf, hrf, hE, hM, hE0]

theorem claim_C8_witness :
    (0x40 < 0x80 ∧ Parser.reset.mExpected = 0 ∧ Parser.reset.mMessage = 0) ∧
      accept Parser.reset 0x40 = some (Parser.mk 0 2 (0, 0), 0) :=
  ⟨by decide, claim_C8 Parser.reset 0x40 (by decide) (by decide) (by decide)⟩

/-- Claim C7 (invariants): in every state reachable from the reset state
by feeding bytes, `mExpected` lies in {-1, 0, 1, 2} (`stateOk`), and every
further byte gives a defined step — all table reads and all `mData` writes
are in bounds, so data lands only at indices 0 and 1 of the two-entry
array — whose successor again has `mExpected` in range and whose
`mMessage` changes only on a message-start byte that is not realtime
(`stepOk`). -/
theorem claim_C7 (p : Parser) (b : Nat) (hp : Reachable p) (hb : b ≤ 0xFF) :
    stateOk p = true ∧ stepOk p b = true := by
  have hInv := reachable_inv hp
  obtain ⟨q, r, hEq, ⟨hE', hM'⟩, hMsg, -⟩ := accept_step hInv hb
  constructor
  · obtain ⟨hE, -⟩ := hInv
    unfold stateOk
    rcases hE with h | h | h | h <;> simp [h]
  · unfold stepOk
    rw [hEq]
    have hq : stateOk q = true := by
      unfold stateOk
      rcases hE' with h | h | h | h <;> simp [h]
    by_cases hmm : q.mMessage = p.mMessage
    · simp [hq, hmm]
    · obtain ⟨h1, h2⟩ := hMsg hmm
      simp [hq, h1, h2]

theorem claim_C7_witness :
    stateOk Parser.reset = true ∧ stepOk Parser.reset 0x42 = true :=
  claim_C7 Parser.reset 0x42 Reachable.init (by decide)

/-- Claim C10: from every reachable state, on every byte, the value
`accept` returns is either 0 ("no message") or a byte with the high bit
set; it is never a data-byte value in 0x01–0x7F. -/
theorem claim_C10 (p q : Parser) (b r : Nat) (hp : Reachable p) (hb : b ≤ 0xFF)
    (hacc : accept p b = some (q, r)) :
    r = 0 ∨ (0x80 ≤ r ∧ r ≤ 0xFF) := by
  obtain ⟨q', r', hEq, -, -, hr⟩ := accept_step (reachable_inv hp) hb
  rw [hacc] at hEq
  obtain ⟨rfl, rfl⟩ : _ ∧ _ := by simpa using hEq
  exact hr

theorem claim_C10_witness :
    0 = 0 ∨ (0x80 ≤ 0 ∧ 0 ≤ 0xFF) :=
  claim_C10 Parser.reset (Parser.mk 0x91 2 (0, 0)) 0x91 0 Reachable.init (by decide) (by decide)
